import Mathlib

/-!
Verification of `cros_config_host/configfs.py`: the ChromeOS ConfigFS
identity-blob serializer (`WriteIdentityStruct`) and the config file-tree
writer (`WriteConfigFSFiles`), shallowly embedded in Lean.

Bytes are modelled as `Nat` (each < 256 by construction), byte strings as
`List Nat`.  Python's `struct.pack('<L', n)` is modelled by `le32` (the
theorems carry `< 2^32` bounds where a value is not bounded by
construction).  Python's `str.encode('utf-8')` is modelled by `utf8Bytes`,
a direct transcription of the UTF-8 scalar-value encoding, and
`str.lower()` by `String.toLower`.  Exceptions (`KeyError` in the ARM
branch) are modelled with `Except`, the error payload carrying the bytes
already written to the output file when the exception propagates.
-/

namespace ConfigFS

/-- `STRUCT_VERSION = 0` in the source. -/
def STRUCT_VERSION : Nat := 0

/-- `class IdentityType(enum.Enum): X86 = 0; ARM = 1`. -/
inductive IdentityType where
  | X86
  | ARM
deriving DecidableEq, Repr

/-- The numeric value of the `IdentityType` enum member. -/
def IdentityType.val : IdentityType → Nat
  | .X86 => 0
  | .ARM => 1

namespace EntryFlags

/-- `HAS_SKU_ID = 1 << 0`. -/
def HAS_SKU_ID : Nat := 1

/-- `HAS_WHITELABEL = 1 << 1`. -/
def HAS_WHITELABEL : Nat := 2

/-- `USES_CUSTOMIZATION_ID = 1 << 2`. -/
def USES_CUSTOMIZATION_ID : Nat := 4

/-- `USES_FIRMWARE_NAME = 1 << 3`. -/
def USES_FIRMWARE_NAME : Nat := 8

/-- `HAS_SMBIOS_NAME = 1 << 4`. -/
def HAS_SMBIOS_NAME : Nat := 16

end EntryFlags

/-- UTF-8 encoding of one Unicode scalar value (given as its code point),
as produced by Python's `str.encode('utf-8')` for each character. -/
def utf8EncodeCharNat (c : Nat) : List Nat :=
  if c < 0x80 then [c]
  else if c < 0x800 then
    [0xC0 ||| (c >>> 6), 0x80 ||| (c &&& 0x3F)]
  else if c < 0x10000 then
    [0xE0 ||| (c >>> 12), 0x80 ||| ((c >>> 6) &&& 0x3F), 0x80 ||| (c &&& 0x3F)]
  else
    [0xF0 ||| (c >>> 18), 0x80 ||| ((c >>> 12) &&& 0x3F),
     0x80 ||| ((c >>> 6) &&& 0x3F), 0x80 ||| (c &&& 0x3F)]

/-- `s.encode('utf-8')` as a list of byte values. -/
def utf8Bytes (s : String) : List Nat :=
  (s.data.map (fun ch => utf8EncodeCharNat ch.toNat)).flatten

/-- `s.lower()`: lower-case each character (`String.toLower`, written out
over the character list). -/
def strLower (s : String) : String :=
  ⟨s.data.map Char.toLower⟩

/-- The byte string stored in the string table for a match string `s`:
`s.lower().encode('utf-8') + b'\000'` in `_StringTableIndex`. -/
def encStr (s : String) : List Nat :=
  utf8Bytes (strLower s) ++ [0]

/-- The scan loop of `_StringTableIndex`: the byte offset of the first
occurrence of `e` in the concatenation of the table entries
(`index = 0; for entry in string_table: if entry == string: return index;
index += len(entry)`). -/
def offsetOf : List (List Nat) → List Nat → Nat
  | [], _ => 0
  | t :: ts, e => if t = e then 0 else t.length + offsetOf ts e

/-- One call to `_StringTableIndex`: for `None` return offset 0 and leave
the table unchanged; otherwise lower-case and encode the string, append it
to the table if not already present, and return its byte offset together
with the updated table. -/
def stIndex (table : List (List Nat)) : Option String → Nat × List (List Nat)
  | none => (0, table)
  | some s =>
      let e := encStr s
      let table1 := if e ∈ table then table else table ++ [e]
      (offsetOf table1 e, table1)

/-- The `identity` dict of one device config, restricted to the keys read
by `configfs.py`.  A `none` field models an absent key. -/
structure IdentityInfo where
  skuId : Option Nat
  smbiosNameMatch : Option String
  deviceTreeCompatibleMatch : Option String
  firmwareName : Option String
  customizationId : Option String
  whitelabelTag : Option String
deriving DecidableEq, Repr

/-- The identity dict with no keys (`{}`). -/
def emptyIdentity : IdentityInfo :=
  ⟨none, none, none, none, none, none⟩

/-- One element of `config['chromeos']['configs']`: a device config with an
optional `identity` dict. -/
structure DeviceConfig where
  identity : Option IdentityInfo
deriving DecidableEq, Repr

/-- `device_config.get('identity', {})`. -/
def identityOf (c : DeviceConfig) : IdentityInfo :=
  c.identity.getD emptyIdentity

/-- The configuration dictionary, restricted to the list
`config['chromeos']['configs']` read by `WriteIdentityStruct`. -/
structure Config where
  configs : List DeviceConfig
deriving DecidableEq, Repr

/-- The identity-type detection of `WriteIdentityStruct`: ARM iff any
config has an identity dict containing `device-tree-compatible-match` or
`firmware-name`, otherwise X86. -/
def identityTypeOf (ds : List DeviceConfig) : IdentityType :=
  if ds.any (fun c => (identityOf c).deviceTreeCompatibleMatch.isSome
        || (identityOf c).firmwareName.isSome)
  then .ARM else .X86

/-- The `model_match` selection for one entry.  For X86 it is the
`smbios-name-match` value when present (else `None`); for ARM it is
`firmware-name` when present, else the mandatory
`device-tree-compatible-match` — whose absence raises `KeyError`,
modelled as `.error ()`. -/
def modelMatch (t : IdentityType) (d : IdentityInfo) : Except Unit (Option String) :=
  match t with
  | .X86 => .ok d.smbiosNameMatch
  | .ARM =>
      match d.firmwareName with
      | some fn => .ok (some fn)
      | none =>
          match d.deviceTreeCompatibleMatch with
          | some dt => .ok (some dt)
          | none => .error ()

/-- The `whitelabel_match` selection for one entry: `customization-id`
when present, else `whitelabel-tag` when present, else `None`. -/
def whitelabelMatch (d : IdentityInfo) : Option String :=
  match d.customizationId with
  | some c => some c
  | none => d.whitelabelTag

/-- The `flags` word accumulated for one entry, by the same sequence of
conditional bit-ors as the source. -/
def entryFlags (t : IdentityType) (d : IdentityInfo) : Nat :=
  let f : Nat := 0
  let f := if d.skuId.isSome then f ||| EntryFlags.HAS_SKU_ID else f
  let f :=
    match t with
    | .X86 => if d.smbiosNameMatch.isSome then f ||| EntryFlags.HAS_SMBIOS_NAME else f
    | .ARM => if d.firmwareName.isSome then f ||| EntryFlags.USES_FIRMWARE_NAME else f
  if d.customizationId.isSome then f ||| EntryFlags.USES_CUSTOMIZATION_ID
  else if d.whitelabelTag.isSome then f ||| EntryFlags.HAS_WHITELABEL
  else f

/-- The four 32-bit fields of one entry struct, in `ENTRY_FORMAT` order:
flags, model-match string offset, SKU id, whitelabel-match string offset. -/
structure EntryVals where
  flags : Nat
  modelOff : Nat
  sku : Nat
  wlOff : Nat
deriving DecidableEq, Repr

/-- Processing of one device config inside the entry loop: compute the
flags, model match and whitelabel match, then resolve the two string-table
offsets in argument order (model first, then whitelabel), threading the
string table.  A missing mandatory `device-tree-compatible-match` in the
ARM case propagates the `KeyError` before anything is written. -/
def mkEntry (t : IdentityType) (d : IdentityInfo) (table : List (List Nat)) :
    Except Unit (EntryVals × List (List Nat)) :=
  match modelMatch t d with
  | .error () => .error ()
  | .ok mm =>
      let p1 := stIndex table mm
      let p2 := stIndex p1.2 (whitelabelMatch d)
      .ok (⟨entryFlags t d, p1.1, d.skuId.getD 0, p2.1⟩, p2.2)

/-- The entry loop of `WriteIdentityStruct`: process the device configs in
order, threading the string table.  On success, return the entry values
and the final string table; on a `KeyError`, return the entry values of
the configs already written before the failing one. -/
def runEntries (t : IdentityType) :
    List IdentityInfo → List (List Nat) →
      Except (List EntryVals) (List EntryVals × List (List Nat))
  | [], table => .ok ([], table)
  | d :: ds, table =>
      match mkEntry t d table with
      | .error () => .error []
      | .ok (ev, table1) =>
          match runEntries t ds table1 with
          | .error evs => .error (ev :: evs)
          | .ok (evs, table2) => .ok (ev :: evs, table2)

/-- `struct.pack('<L', n)`: four little-endian bytes. -/
def le32 (n : Nat) : List Nat :=
  [n % 256, n / 2 ^ 8 % 256, n / 2 ^ 16 % 256, n / 2 ^ 24 % 256]

/-- `struct.pack(HEADER_FORMAT, version, identity_type, entry_count)` with
`HEADER_FORMAT = '<LLL4x'`: three little-endian 32-bit words and four zero
pad bytes. -/
def packHeader (version ity count : Nat) : List Nat :=
  le32 version ++ le32 ity ++ le32 count ++ [0, 0, 0, 0]

/-- `struct.pack(ENTRY_FORMAT, flags, model, sku, whitelabel)` with
`ENTRY_FORMAT = '<LLLL'`. -/
def packEntry (e : EntryVals) : List Nat :=
  le32 e.flags ++ le32 e.modelOff ++ le32 e.sku ++ le32 e.wlOff

/-- `WriteIdentityStruct(config, output_file)`: the bytes written to
`output_file`.  `.ok blob` is a normal return; `.error blob` means a
`KeyError` escaped after `blob` had already been written (the header and
the completed entries — the string table is only written at the end). -/
def writeIdentityStruct (cfg : Config) : Except (List Nat) (List Nat) :=
  let ds := cfg.configs
  let t := identityTypeOf ds
  let header := packHeader STRUCT_VERSION t.val ds.length
  match runEntries t (ds.map identityOf) [] with
  | .error evs => .error (header ++ (evs.map packEntry).flatten)
  | .ok (evs, table) => .ok (header ++ (evs.map packEntry).flatten ++ table.flatten)

/-- The bytes present in the output file after a run, whether or not the
run raised. -/
def outBytes : Except (List Nat) (List Nat) → List Nat
  | .ok b => b
  | .error b => b

/-- `struct.unpack_from('<L', bs, off)`: read a little-endian 32-bit word
at byte offset `off`. -/
def readLE32At (bs : List Nat) (off : Nat) : Nat :=
  match bs.drop off with
  | a :: b :: c :: d :: _ => a + 2 ^ 8 * b + 2 ^ 16 * c + 2 ^ 24 * d
  | _ => 0

/-- The `_GetString` helper of the unit test: the bytes of the blob from
`base + off` up to (excluding) the first NUL. -/
def getTableString (bs : List Nat) (base off : Nat) : List Nat :=
  (bs.drop (base + off)).takeWhile (fun b => b ≠ 0)

/-- A string field whose lower-cased UTF-8 encoding contains no NUL byte
(always the case for real match strings); an absent field is trivially
NUL-free. -/
def nulFree : Option String → Prop
  | none => True
  | some s => (0 : Nat) ∉ utf8Bytes (strLower s)

instance (m : Option String) : Decidable (nulFree m) := by
  cases m <;> simp [nulFree] <;> infer_instance

/-- All string-valued identity fields of a device are NUL-free. -/
def nulFreeIdentity (d : IdentityInfo) : Prop :=
  nulFree d.smbiosNameMatch ∧ nulFree d.deviceTreeCompatibleMatch ∧
    nulFree d.firmwareName ∧ nulFree d.customizationId ∧ nulFree d.whitelabelTag

instance (d : IdentityInfo) : Decidable (nulFreeIdentity d) := by
  unfold nulFreeIdentity; infer_instance

/-- The default entry used with `List.getD`. -/
def ev0 : EntryVals := ⟨0, 0, 0, 0⟩

/-- Correctness of one serialized entry relative to a string table `T`:
the flags and SKU fields are those computed by the source, and each
string-offset field is the byte offset of the (lower-cased, NUL-terminated)
string in `T`, or 0 when the string is absent. -/
def entrySpec (t : IdentityType) (d : IdentityInfo) (T : List (List Nat))
    (ev : EntryVals) : Prop :=
  ev.flags = entryFlags t d ∧
  ev.sku = d.skuId.getD 0 ∧
  (match modelMatch t d with
   | .ok (some s) => ev.modelOff = offsetOf T (encStr s) ∧ encStr s ∈ T
   | .ok none => ev.modelOff = 0
   | .error _ => False) ∧
  (match whitelabelMatch d with
   | some s => ev.wlOff = offsetOf T (encStr s) ∧ encStr s ∈ T
   | none => ev.wlOff = 0)

/-- The table-update step of `_StringTableIndex`: append the encoded
string unless it is already present. -/
def insertNew (T : List (List Nat)) (e : List Nat) : List (List Nat) :=
  if e ∈ T then T else T ++ [e]

/-- The encoded strings one entry attempts to insert into the string
table, in insertion order: model match first, then whitelabel match. -/
def entryStrings (t : IdentityType) (d : IdentityInfo) : List (List Nat) :=
  (match modelMatch t d with
   | .ok (some s) => [encStr s]
   | _ => []) ++
  (match whitelabelMatch d with
   | some s => [encStr s]
   | none => [])

/-! ### The ConfigFS file tree writer (`WriteConfigFSFiles` / `Serialize`) -/

/-- A leaf configuration value: the non-dict, non-list values `Serialize`
handles (str, int, bytes, bool). -/
inductive Leaf where
  | str (s : String)
  | int (n : Int)
  | bool (b : Bool)
  | bytes (bs : List Nat)
deriving DecidableEq, Repr

/-- A configuration value for `WriteConfigFSFiles`: a dict (ordered
key/value pairs, as iterated by `config.items()`), a list, or a leaf. -/
inductive CValue where
  | dict (entries : List (String × CValue))
  | list (entries : List CValue)
  | leaf (v : Leaf)

/-- `Serialize(obj)`: bytes unchanged, booleans as `b'true'`/`b'false'`,
anything else as `str(obj).encode('utf-8')`. -/
def Serialize : Leaf → List Nat
  | .bytes bs => bs
  | .bool b => if b then utf8Bytes "true" else utf8Bytes "false"
  | .str s => utf8Bytes s
  | .int n => utf8Bytes (toString n)

/-- A filesystem node: a directory (`os.makedirs`) or a regular file with
its contents. -/
inductive FSNode where
  | dir
  | file (content : List Nat)
deriving DecidableEq, Repr

/-- One filesystem object created by `WriteConfigFSFiles`: a path and the
node created there. -/
structure FSEntry where
  path : String
  node : FSNode
deriving DecidableEq, Repr

/-- `os.path.join(base_path, str(name))` for the relative child names
used here. -/
def pathJoin (base name : String) : String :=
  base ++ "/" ++ name

mutual

/-- `WriteConfigFSFiles(config, base_path)`: the list of filesystem
objects created, in creation order.  A dict or list node makes a directory
and recurses over its children (dict keys / list indices as names); a leaf
makes a file containing `Serialize` of the value. -/
def writeConfigFSFiles : CValue → String → List FSEntry
  | .leaf v, p => [⟨p, .file (Serialize v)⟩]
  | .dict es, p => ⟨p, .dir⟩ :: writeDictChildren es p
  | .list es, p => ⟨p, .dir⟩ :: writeListChildren 0 es p

/-- The loop over `config.items()` for a dict node. -/
def writeDictChildren : List (String × CValue) → String → List FSEntry
  | [], _ => []
  | (k, v) :: es, p => writeConfigFSFiles v (pathJoin p k) ++ writeDictChildren es p

/-- The loop over `enumerate(config)` for a list node, carrying the next
index. -/
def writeListChildren : Nat → List CValue → String → List FSEntry
  | _, [], _ => []
  | i, v :: es, p =>
      writeConfigFSFiles v (pathJoin p (toString i)) ++ writeListChildren (i + 1) es p

end

/-- The filesystem object corresponding to one node of the tree: a
directory for a dict or list, a file holding `Serialize` of a leaf. -/
def nodeEntry : CValue → String → FSEntry
  | .leaf v, p => ⟨p, .file (Serialize v)⟩
  | .dict _, p => ⟨p, .dir⟩
  | .list _, p => ⟨p, .dir⟩

/-- `Reach v p c q`: starting from the tree `v` rooted at path `p`, the
subtree `c` lies at path `q` — following dict keys and list indices, each
step appending the child name to the path exactly as the recursion of
`WriteConfigFSFiles` does. -/
inductive Reach : CValue → String → CValue → String → Prop where
  | here (v : CValue) (p : String) : Reach v p v p
  | dictStep (es : List (String × CValue)) (p : String) (k : String) (v c : CValue)
      (q : String) (hmem : (k, v) ∈ es) (hr : Reach v (pathJoin p k) c q) :
      Reach (.dict es) p c q
  | listStep (es : List CValue) (p : String) (j : Nat) (c : CValue) (q : String)
      (hj : j < es.length) (hr : Reach (es.get ⟨j, hj⟩) (pathJoin p (toString j)) c q) :
      Reach (.list es) p c q

/-! ### Concrete configurations used as evaluation inputs -/

/-- One X86 device whose `smbios-name-match` has an upper-case letter. -/
def cfgUpper : Config :=
  ⟨[⟨some ⟨none, some "A", none, none, none, none⟩⟩]⟩

/-- Two X86 devices sharing the match string `"Shared"`/`"shared"` (equal
after lower-casing), with a SKU id, a whitelabel tag and a
customization id. -/
def cfgShare : Config :=
  ⟨[⟨some ⟨some 3, some "Shared", none, none, none, some "wl1"⟩⟩,
    ⟨some ⟨none, some "shared", none, none, some "Cust", some "wl1"⟩⟩]⟩

/-- The blob `WriteIdentityStruct` writes for `cfgShare`. -/
def blobShare : List Nat := outBytes (writeIdentityStruct cfgShare)

/-- One X86 device with both a `customization-id` and a `whitelabel-tag`. -/
def cfgBothTags : Config :=
  ⟨[⟨some ⟨none, none, none, none, some "c", some "w"⟩⟩]⟩

/-- An ARM configuration whose second device config has no identity dict
at all (so neither `firmware-name` nor `device-tree-compatible-match`). -/
def cfgArmBad : Config :=
  ⟨[⟨some ⟨none, none, some "google,x", none, none, none⟩⟩, ⟨none⟩]⟩

/-- One X86 device whose `smbios-name-match` is present: its model-match
string is the first string inserted, stored at offset 0. -/
def cfgFirstStr : Config :=
  ⟨[⟨some ⟨none, some "a", none, none, none, none⟩⟩]⟩

/-- One X86 device with no match strings at all: its model-match offset
field is 0 because the string is absent. -/
def cfgNoStr : Config :=
  ⟨[⟨some ⟨some 7, none, none, none, none, none⟩⟩]⟩

/-- A device config written with an explicitly empty identity dict: equal
to a config with no `identity` key as far as `WriteIdentityStruct` reads. -/
def cfgEmptyIdent : Config := ⟨[⟨some emptyIdentity⟩]⟩

/-- A device config with no `identity` key. -/
def cfgNoIdent : Config := ⟨[⟨none⟩]⟩

instance {ε α : Type} [DecidableEq ε] [DecidableEq α] : DecidableEq (Except ε α)
  | .error a, .error b =>
      if h : a = b then isTrue (by rw [h]) else isFalse (fun hc => h (by injection hc))
  | .error _, .ok _ => isFalse (fun h => Except.noConfusion h)
  | .ok _, .error _ => isFalse (fun h => Except.noConfusion h)
  | .ok a, .ok b =>
      if h : a = b then isTrue (by rw [h]) else isFalse (fun hc => h (by injection hc))

section ByteLemmas

lemma le32_length (n : Nat) : (le32 n).length = 4 := rfl

lemma packEntry_length (ev : EntryVals) : (packEntry ev).length = 16 := rfl

lemma packHeader_length (v i n : Nat) : (packHeader v i n).length = 16 := rfl

lemma readLE32At_le32_append (n : Nat) (rest : List Nat) (h : n < 2 ^ 32) :
    readLE32At (le32 n ++ rest) 0 = n := by
  simp only [le32, readLE32At, List.cons_append, List.nil_append, List.drop_zero]
  omega

lemma readLE32At_append (pre bs : List Nat) (k : Nat) :
    readLE32At (pre ++ bs) (pre.length + k) = readLE32At bs k := by
  simp only [readLE32At, List.drop_append]

lemma readLE32At_append_zero (pre bs : List Nat) :
    readLE32At (pre ++ bs) pre.length = readLE32At bs 0 := by
  have := readLE32At_append pre bs 0
  simp only [Nat.add_zero] at this
  exact this

end ByteLemmas

section TableLemmas

lemma offsetOf_append_of_mem {T : List (List Nat)} {e : List Nat} (h : e ∈ T)
    (T2 : List (List Nat)) : offsetOf (T ++ T2) e = offsetOf T e := by
  induction T with
  | nil => cases h
  | cons t ts ih =>
      by_cases hte : t = e
      · simp [offsetOf, hte]
      · rcases List.mem_cons.mp h with h | h
        · exact absurd h.symm hte
        · simp [offsetOf, hte, ih h]

lemma offsetOf_drop_flatten {T : List (List Nat)} {e : List Nat} (h : e ∈ T) :
    ∃ rest, T.flatten.drop (offsetOf T e) = e ++ rest := by
  induction T with
  | nil => cases h
  | cons t ts ih =>
      by_cases hte : t = e
      · exact ⟨ts.flatten, by simp [offsetOf, hte]⟩
      · rcases List.mem_cons.mp h with h | h
        · exact absurd h.symm hte
        · rcases ih h with ⟨rest, hrest⟩
          refine ⟨rest, ?_⟩
          simp only [offsetOf, hte, if_false, List.flatten_cons, List.drop_append]
          exact hrest

lemma offsetOf_add_length_le {T : List (List Nat)} {e : List Nat} (h : e ∈ T) :
    offsetOf T e + e.length ≤ T.flatten.length := by
  induction T with
  | nil => cases h
  | cons t ts ih =>
      by_cases hte : t = e
      · subst hte; simp [offsetOf]
      · rcases List.mem_cons.mp h with h | h
        · exact absurd h.symm hte
        · have := ih h
          simp only [offsetOf, hte, if_false, List.flatten_cons, List.length_append]
          omega

lemma stIndex_table_ext (T : List (List Nat)) (m : Option String) :
    ∃ ext, (stIndex T m).2 = T ++ ext := by
  cases m with
  | none => exact ⟨[], by simp [stIndex]⟩
  | some s =>
      by_cases h : encStr s ∈ T
      · exact ⟨[], by simp [stIndex, h]⟩
      · exact ⟨[encStr s], by simp [stIndex, h]⟩

lemma stIndex_some_mem (T : List (List Nat)) (s : String) :
    encStr s ∈ (stIndex T (some s)).2 := by
  by_cases h : encStr s ∈ T
  · simp [stIndex, h]
  · simp [stIndex, h]

lemma stIndex_some_off (T : List (List Nat)) (s : String) :
    (stIndex T (some s)).1 = offsetOf (stIndex T (some s)).2 (encStr s) := by
  by_cases h : encStr s ∈ T <;> simp [stIndex, h]

end TableLemmas

section RunLemmas

lemma entrySpec_mono {t : IdentityType} {d : IdentityInfo} {T : List (List Nat)}
    {ev : EntryVals} (h : entrySpec t d T ev) (ext : List (List Nat)) :
    entrySpec t d (T ++ ext) ev := by
  obtain ⟨hf, hs, hm, hw⟩ := h
  refine ⟨hf, hs, ?_, ?_⟩
  · revert hm
    cases hmm : modelMatch t d with
    | error u => exact id
    | ok mm =>
        cases mm with
        | none => exact id
        | some s =>
            rintro ⟨h1, h2⟩
            exact ⟨h1.trans (offsetOf_append_of_mem h2 ext).symm,
              List.mem_append_left ext h2⟩
  · revert hw
    cases hwm : whitelabelMatch d with
    | none => exact id
    | some s =>
        rintro ⟨h1, h2⟩
        exact ⟨h1.trans (offsetOf_append_of_mem h2 ext).symm,
          List.mem_append_left ext h2⟩

lemma mkEntry_error_iff (t : IdentityType) (d : IdentityInfo) (T : List (List Nat)) :
    mkEntry t d T = .error () ↔ modelMatch t d = .error () := by
  cases h : modelMatch t d with
  | error u => cases u; simp [mkEntry, h]
  | ok mm => simp [mkEntry, h]

lemma mkEntry_ok_spec {t : IdentityType} {d : IdentityInfo} {T T1 : List (List Nat)}
    {ev : EntryVals} (h : mkEntry t d T = .ok (ev, T1)) :
    (∃ ext, T1 = T ++ ext) ∧ entrySpec t d T1 ev := by
  cases hmm : modelMatch t d with
  | error u => cases u; simp [mkEntry, hmm] at h
  | ok mm =>
      simp only [mkEntry, hmm, Except.ok.injEq, Prod.mk.injEq] at h
      obtain ⟨hev, hT1⟩ := h
      obtain ⟨ext1, hext1⟩ := stIndex_table_ext T mm
      obtain ⟨ext2, hext2⟩ := stIndex_table_ext (stIndex T mm).2 (whitelabelMatch d)
      have hT1ext : ∃ ext, T1 = T ++ ext :=
        ⟨ext1 ++ ext2, by rw [← hT1, hext2, hext1, List.append_assoc]⟩
      refine ⟨hT1ext, ?_, ?_, ?_, ?_⟩
      · rw [← hev]
      · rw [← hev]
      · rw [hmm]
        cases mm with
        | none =>
            rw [← hev]
            exact rfl
        | some s =>
            rw [← hev]
            constructor
            · have h0 := stIndex_some_off T s
              have hmem := stIndex_some_mem T s
              rw [← hT1, hext2]
              simp only [h0]
              exact (offsetOf_append_of_mem hmem ext2).symm
            · rw [← hT1, hext2]
              exact List.mem_append_left ext2 (stIndex_some_mem T s)
      · cases hwm : whitelabelMatch d with
        | none =>
            rw [← hev]
            simp [hwm, stIndex]
        | some s =>
            rw [← hev]
            simp only [hwm]
            constructor
            · have h0 := stIndex_some_off (stIndex T mm).2 s
              rw [← hT1, hwm] at *
              exact h0
            · rw [← hT1, hwm]
              exact stIndex_some_mem (stIndex T mm).2 s

lemma runEntries_ok_spec {t : IdentityType} :
    ∀ (ds : List IdentityInfo) (T : List (List Nat)) (evs : List EntryVals)
      (Tf : List (List Nat)), runEntries t ds T = .ok (evs, Tf) →
      (∃ ext, Tf = T ++ ext) ∧ evs.length = ds.length ∧
      ∀ i, i < ds.length →
        entrySpec t (ds.getD i emptyIdentity) Tf (evs.getD i ev0)
  | [], T, evs, Tf, h => by
      simp only [runEntries, Except.ok.injEq, Prod.mk.injEq] at h
      obtain ⟨hevs, hTf⟩ := h
      exact ⟨⟨[], by simp [← hTf]⟩, by simp [← hevs], fun i hi => by cases hi⟩
  | d :: ds, T, evs, Tf, h => by
      rw [runEntries] at h
      cases hmk : mkEntry t d T with
      | error u => rw [hmk] at h; cases u; cases h
      | ok p =>
          obtain ⟨ev, T1⟩ := p
          rw [hmk] at h
          dsimp only at h
          cases hrun : runEntries t ds T1 with
          | error evs1 => rw [hrun] at h; cases h
          | ok p1 =>
              obtain ⟨evs1, T2⟩ := p1
              rw [hrun] at h
              dsimp only at h
              simp only [Except.ok.injEq, Prod.mk.injEq] at h
              obtain ⟨hevs, hTf⟩ := h
              obtain ⟨⟨ext1, hext1⟩, hspec1⟩ := mkEntry_ok_spec hmk
              obtain ⟨⟨ext2, hext2⟩, hlen, hall⟩ := runEntries_ok_spec ds T1 evs1 T2 hrun
              subst hTf
              refine ⟨⟨ext1 ++ ext2, by rw [hext2, hext1, List.append_assoc]⟩, ?_, ?_⟩
              · simp [← hevs, hlen]
              · intro i hi
                cases i with
                | zero =>
                    rw [← hevs]
                    simp only [List.getD_cons_zero]
                    rw [hext2]
                    exact entrySpec_mono hspec1 ext2
                | succ j =>
                    rw [← hevs]
                    simp only [List.getD_cons_succ]
                    exact hall j (by simpa using hi)

end RunLemmas

section BlobLemmas

lemma entryFlags_lt (t : IdentityType) (d : IdentityInfo) : entryFlags t d < 32 := by
  obtain ⟨sku, smb, dt, fw, cust, wl⟩ := d
  cases t <;> cases sku <;> cases smb <;> cases fw <;> cases cust <;> cases wl <;>
    simp [entryFlags, EntryFlags.HAS_SKU_ID, EntryFlags.HAS_SMBIOS_NAME,
      EntryFlags.USES_FIRMWARE_NAME, EntryFlags.USES_CUSTOMIZATION_ID,
      EntryFlags.HAS_WHITELABEL]

lemma writeIdentityStruct_ok_elim {cfg : Config} {blob : List Nat}
    (h : writeIdentityStruct cfg = .ok blob) :
    ∃ evs T,
      runEntries (identityTypeOf cfg.configs) (cfg.configs.map identityOf) [] =
          .ok (evs, T) ∧
      blob = packHeader STRUCT_VERSION (identityTypeOf cfg.configs).val
          cfg.configs.length ++ (evs.map packEntry).flatten ++ T.flatten := by
  rw [writeIdentityStruct] at h
  cases hrun : runEntries (identityTypeOf cfg.configs) (cfg.configs.map identityOf) [] with
  | error evs => rw [hrun] at h; cases h
  | ok p =>
      obtain ⟨evs, T⟩ := p
      rw [hrun] at h
      dsimp only at h
      exact ⟨evs, T, rfl, (Except.ok.injEq _ _ ▸ h).symm⟩

lemma entriesBytes_length (evs : List EntryVals) :
    ((evs.map packEntry).flatten).length = 16 * evs.length := by
  induction evs with
  | nil => rfl
  | cons ev evs ih =>
      simp only [List.map_cons, List.flatten_cons, List.length_append, ih,
        packEntry_length, List.length_cons]
      ring

lemma entriesBytes_drop (evs : List EntryVals) :
    ∀ i, i < evs.length →
      ((evs.map packEntry).flatten).drop (16 * i) =
        packEntry (evs.getD i ev0) ++ ((evs.drop (i + 1)).map packEntry).flatten := by
  induction evs with
  | nil => intro i hi; cases hi
  | cons ev evs ih =>
      intro i hi
      cases i with
      | zero => simp
      | succ j =>
          have h16 : 16 * (j + 1) = (packEntry ev).length + 16 * j := by
            rw [packEntry_length]; ring
          simp only [List.map_cons, List.flatten_cons, h16, List.drop_append,
            List.getD_cons_succ, List.drop_succ_cons]
          exact ih j (by simpa using hi)

lemma packEntry_reads (ev : EntryVals) (rest : List Nat)
    (hf : ev.flags < 2 ^ 32) (hm : ev.modelOff < 2 ^ 32)
    (hs : ev.sku < 2 ^ 32) (hw : ev.wlOff < 2 ^ 32) :
    readLE32At (packEntry ev ++ rest) 0 = ev.flags ∧
    readLE32At (packEntry ev ++ rest) 4 = ev.modelOff ∧
    readLE32At (packEntry ev ++ rest) 8 = ev.sku ∧
    readLE32At (packEntry ev ++ rest) 12 = ev.wlOff := by
  refine ⟨?_, ?_, ?_, ?_⟩ <;>
    · simp only [packEntry, le32, readLE32At, List.cons_append, List.nil_append,
        List.drop_zero, List.drop_succ_cons, List.drop_zero]
      omega

lemma packHeader_reads (v i n : Nat) (rest : List Nat)
    (hv : v < 2 ^ 32) (hi : i < 2 ^ 32) (hn : n < 2 ^ 32) :
    readLE32At (packHeader v i n ++ rest) 0 = v ∧
    readLE32At (packHeader v i n ++ rest) 4 = i ∧
    readLE32At (packHeader v i n ++ rest) 8 = n := by
  refine ⟨?_, ?_, ?_⟩ <;>
    · simp only [packHeader, le32, readLE32At, List.cons_append, List.nil_append,
        List.drop_zero, List.drop_succ_cons]
      omega

lemma takeWhile_append_nul (l rest : List Nat) (h : ∀ b ∈ l, b ≠ 0) :
    (l ++ 0 :: rest).takeWhile (fun b => b ≠ 0) = l := by
  induction l with
  | nil => simp
  | cons a l ih =>
      have ha : a ≠ 0 := h a (List.mem_cons_self a l)
      have ih1 := ih (fun b hb => h b (List.mem_cons_of_mem a hb))
      simp only [ne_eq, decide_not] at ih1
      simp [List.takeWhile_cons, ha, ih1]

end BlobLemmas

section MasterLemmas

lemma modelMatch_some_field {t : IdentityType} {d : IdentityInfo} {s : String}
    (h : modelMatch t d = .ok (some s)) :
    d.smbiosNameMatch = some s ∨ d.firmwareName = some s ∨
      d.deviceTreeCompatibleMatch = some s := by
  cases t with
  | X86 =>
      simp only [modelMatch, Except.ok.injEq] at h
      exact Or.inl h
  | ARM =>
      cases hfw : d.firmwareName with
      | some fn =>
          simp only [modelMatch, hfw, Except.ok.injEq, Option.some.injEq] at h
          exact Or.inr (Or.inl (by rw [h]))
      | none =>
          cases hdt : d.deviceTreeCompatibleMatch with
          | some dt =>
              simp only [modelMatch, hfw, hdt, Except.ok.injEq, Option.some.injEq] at h
              exact Or.inr (Or.inr (by rw [h]))
          | none => simp [modelMatch, hfw, hdt] at h

lemma whitelabelMatch_some_field {d : IdentityInfo} {s : String}
    (h : whitelabelMatch d = some s) :
    d.customizationId = some s ∨ d.whitelabelTag = some s := by
  cases hc : d.customizationId with
  | some c =>
      simp only [whitelabelMatch, hc, Option.some.injEq] at h
      exact Or.inl (by rw [h])
  | none =>
      simp only [whitelabelMatch, hc] at h
      exact Or.inr h

lemma nulFree_of_identity {d : IdentityInfo} {s : String} (hd : nulFreeIdentity d)
    (h : d.smbiosNameMatch = some s ∨ d.deviceTreeCompatibleMatch = some s ∨
      d.firmwareName = some s ∨ d.customizationId = some s ∨ d.whitelabelTag = some s) :
    ∀ b ∈ utf8Bytes (strLower s), b ≠ 0 := by
  obtain ⟨h1, h2, h3, h4, h5⟩ := hd
  have hnf : nulFree (some s) := by
    rcases h with h | h | h | h | h
    · rw [h] at h1; exact h1
    · rw [h] at h2; exact h2
    · rw [h] at h3; exact h3
    · rw [h] at h4; exact h4
    · rw [h] at h5; exact h5
  intro b hb hb0
  exact hnf (hb0 ▸ hb)

lemma getD_map_identityOf (l : List DeviceConfig) (i : Nat) :
    (l.map identityOf).getD i emptyIdentity = identityOf (l.getD i ⟨none⟩) :=
  List.getD_map l ⟨none⟩ identityOf

lemma getD_mem_of_lt {l : List DeviceConfig} {i : Nat} (h : i < l.length) :
    l.getD i ⟨none⟩ ∈ l := by
  rw [List.getD_eq_getElem l ⟨none⟩ h]
  exact List.getElem_mem h

lemma readLE32At_add_drop (bs : List Nat) (a k : Nat) :
    readLE32At bs (a + k) = readLE32At (bs.drop a) k := by
  simp only [readLE32At, List.drop_drop]
  try rw [Nat.add_comm a k]

/-- On a successful run, reading the four little-endian fields of entry `i`
out of the blob recovers the values computed by the entry loop, and reading
the string table at a stored offset recovers the stored lower-cased string. -/
lemma write_ok_reads {cfg : Config} {blob : List Nat}
    (h : writeIdentityStruct cfg = .ok blob)
    (hsku : ∀ c ∈ cfg.configs, (identityOf c).skuId.getD 0 < 2 ^ 32)
    (hnul : ∀ c ∈ cfg.configs, nulFreeIdentity (identityOf c))
    (hb : blob.length < 2 ^ 32) :
    ∀ i, i < cfg.configs.length →
      readLE32At blob (16 + 16 * i) =
          entryFlags (identityTypeOf cfg.configs)
            (identityOf (cfg.configs.getD i ⟨none⟩)) ∧
      readLE32At blob (16 + 16 * i + 8) =
          (identityOf (cfg.configs.getD i ⟨none⟩)).skuId.getD 0 ∧
      (∀ s, modelMatch (identityTypeOf cfg.configs)
            (identityOf (cfg.configs.getD i ⟨none⟩)) = .ok (some s) →
          getTableString blob (16 + 16 * cfg.configs.length)
              (readLE32At blob (16 + 16 * i + 4)) = utf8Bytes (strLower s)) ∧
      (modelMatch (identityTypeOf cfg.configs)
            (identityOf (cfg.configs.getD i ⟨none⟩)) = .ok none →
          readLE32At blob (16 + 16 * i + 4) = 0) ∧
      (∀ s, whitelabelMatch (identityOf (cfg.configs.getD i ⟨none⟩)) = some s →
          getTableString blob (16 + 16 * cfg.configs.length)
              (readLE32At blob (16 + 16 * i + 12)) = utf8Bytes (strLower s)) ∧
      (whitelabelMatch (identityOf (cfg.configs.getD i ⟨none⟩)) = none →
          readLE32At blob (16 + 16 * i + 12) = 0) := by
  obtain ⟨evs, T, hrun, hbeq⟩ := writeIdentityStruct_ok_elim h
  obtain ⟨-, hlen, hall⟩ := runEntries_ok_spec _ _ _ _ hrun
  have hlen1 : evs.length = cfg.configs.length := by simpa using hlen
  intro i hi
  have hspec := hall i (by simpa using hi)
  rw [getD_map_identityOf] at hspec
  obtain ⟨hf, hs, hm, hw⟩ := hspec
  have hmemc : cfg.configs.getD i ⟨none⟩ ∈ cfg.configs := getD_mem_of_lt hi
  -- abbreviations
  have hilen : i < evs.length := hlen1 ▸ hi
  have hEB := entriesBytes_drop evs i hilen
  -- blob length decomposition
  have hlenblob : blob.length = 16 + 16 * evs.length + T.flatten.length := by
    rw [hbeq]
    simp only [List.length_append, packHeader_length, entriesBytes_length]
  -- reading field k of entry i
  have hfield : ∀ k,
      readLE32At blob (16 + 16 * i + k) =
        readLE32At (packEntry (evs.getD i ev0) ++
          (((evs.drop (i + 1)).map packEntry).flatten ++ T.flatten)) k := by
    intro k
    have h1 : 16 + 16 * i + k =
        (packHeader STRUCT_VERSION (identityTypeOf cfg.configs).val
          cfg.configs.length).length + (16 * i + k) := by
      rw [packHeader_length]; ring
    rw [hbeq, List.append_assoc, h1, readLE32At_append, readLE32At_add_drop]
    have h2 : 16 * i ≤ ((evs.map packEntry).flatten).length := by
      rw [entriesBytes_length]; omega
    rw [List.drop_append_of_le_length h2, hEB, List.append_assoc]
  -- bounds for the four fields of entry i
  have hflt : (evs.getD i ev0).flags < 2 ^ 32 := by
    rw [hf]
    exact lt_trans (entryFlags_lt _ _) (by norm_num)
  have hsklt : (evs.getD i ev0).sku < 2 ^ 32 := by
    rw [hs]
    exact hsku _ hmemc
  have hofflt : ∀ e, e ∈ T → offsetOf T e < 2 ^ 32 := by
    intro e he
    have h1 := offsetOf_add_length_le he
    omega
  have hmlt : (evs.getD i ev0).modelOff < 2 ^ 32 := by
    revert hm
    cases modelMatch (identityTypeOf cfg.configs)
        (identityOf (cfg.configs.getD i ⟨none⟩)) with
    | error u => exact fun hc => absurd hc not_false
    | ok mm =>
        cases mm with
        | none => intro hm; rw [hm]; norm_num
        | some s =>
            rintro ⟨h1, h2⟩
            rw [h1]
            exact hofflt _ h2
  have hwlt : (evs.getD i ev0).wlOff < 2 ^ 32 := by
    revert hw
    cases whitelabelMatch (identityOf (cfg.configs.getD i ⟨none⟩)) with
    | none => intro hw; rw [hw]; norm_num
    | some s =>
        rintro ⟨h1, h2⟩
        rw [h1]
        exact hofflt _ h2
  obtain ⟨hrd0, hrd4, hrd8, hrd12⟩ :=
    packEntry_reads (evs.getD i ev0)
      (((evs.drop (i + 1)).map packEntry).flatten ++ T.flatten) hflt hmlt hsklt hwlt
  -- reading the string table at a stored offset
  have hstr : ∀ s, encStr s ∈ T →
      (∀ b ∈ utf8Bytes (strLower s), b ≠ 0) →
      getTableString blob (16 + 16 * cfg.configs.length) (offsetOf T (encStr s)) =
        utf8Bytes (strLower s) := by
    intro s hsT hsnul
    have hbase : 16 + 16 * cfg.configs.length =
        ((packHeader STRUCT_VERSION (identityTypeOf cfg.configs).val
          cfg.configs.length) ++ (evs.map packEntry).flatten).length := by
      simp only [List.length_append, packHeader_length, entriesBytes_length, hlen1]
    rw [getTableString, hbeq, hbase, List.drop_append]
    obtain ⟨rest, hrest⟩ := offsetOf_drop_flatten hsT
    rw [hrest, encStr, List.append_assoc, List.singleton_append]
    exact takeWhile_append_nul _ _ hsnul
  have hfield0 : readLE32At blob (16 + 16 * i) =
      readLE32At (packEntry (evs.getD i ev0) ++
        (((evs.drop (i + 1)).map packEntry).flatten ++ T.flatten)) 0 := by
    have h0 := hfield 0
    rw [Nat.add_zero] at h0
    exact h0
  refine ⟨by rw [hfield0, hrd0, hf], ?_, ?_, ?_, ?_, ?_⟩
  · rw [hfield 8, hrd8, hs]
  · intro s hms
    rw [hfield 4, hrd4]
    rw [hms] at hm
    obtain ⟨h1, h2⟩ := hm
    rw [h1]
    refine hstr s h2 (nulFree_of_identity (hnul _ hmemc) ?_)
    rcases modelMatch_some_field hms with hx | hx | hx
    · exact Or.inl hx
    · exact Or.inr (Or.inr (Or.inl hx))
    · exact Or.inr (Or.inl hx)
  · intro hms
    rw [hfield 4, hrd4]
    rw [hms] at hm
    exact hm
  · intro s hws
    rw [hfield 12, hrd12]
    rw [hws] at hw
    obtain ⟨h1, h2⟩ := hw
    rw [h1]
    refine hstr s h2 (nulFree_of_identity (hnul _ hmemc) ?_)
    rcases whitelabelMatch_some_field hws with hx | hx
    · exact Or.inr (Or.inr (Or.inr (Or.inl hx)))
    · exact Or.inr (Or.inr (Or.inr (Or.inr hx)))
  · intro hws
    rw [hfield 12, hrd12]
    rw [hws] at hw
    exact hw

lemma IdentityType.val_lt (t : IdentityType) : t.val < 2 ^ 32 := by
  cases t <;> norm_num [IdentityType.val]

lemma outBytes_header (cfg : Config) :
    ∃ rest, outBytes (writeIdentityStruct cfg) =
      packHeader STRUCT_VERSION (identityTypeOf cfg.configs).val
        cfg.configs.length ++ rest := by
  rw [writeIdentityStruct]
  cases hrun : runEntries (identityTypeOf cfg.configs) (cfg.configs.map identityOf) [] with
  | error evs => exact ⟨(evs.map packEntry).flatten, rfl⟩
  | ok p =>
      obtain ⟨evs, T⟩ := p
      exact ⟨(evs.map packEntry).flatten ++ T.flatten, by
        dsimp only [outBytes]
        rw [List.append_assoc]⟩

lemma packHeader_read_ity (v i n : Nat) (rest : List Nat) (hi : i < 2 ^ 32) :
    readLE32At (packHeader v i n ++ rest) 4 = i := by
  simp only [packHeader, le32, readLE32At, List.cons_append, List.nil_append,
    List.drop_succ_cons, List.drop_zero]
  omega

lemma packHeader_read_count (v i n : Nat) (rest : List Nat) (hn : n < 2 ^ 32) :
    readLE32At (packHeader v i n ++ rest) 8 = n := by
  simp only [packHeader, le32, readLE32At, List.cons_append, List.nil_append,
    List.drop_succ_cons, List.drop_zero]
  omega

lemma packEntry_read_flags (ev : EntryVals) (rest : List Nat)
    (hf : ev.flags < 2 ^ 32) :
    readLE32At (packEntry ev ++ rest) 0 = ev.flags := by
  simp only [packEntry, le32, readLE32At, List.cons_append, List.nil_append,
    List.drop_zero]
  omega

lemma identityTypeOf_eq_ARM_iff (ds : List DeviceConfig) :
    identityTypeOf ds = .ARM ↔
      ∃ c ∈ ds, (identityOf c).deviceTreeCompatibleMatch.isSome = true ∨
        (identityOf c).firmwareName.isSome = true := by
  unfold identityTypeOf
  by_cases h : ds.any (fun c => (identityOf c).deviceTreeCompatibleMatch.isSome
      || (identityOf c).firmwareName.isSome) = true
  · rw [if_pos h]
    simp only [true_iff]
    rcases List.any_eq_true.mp h with ⟨c, hc, hp⟩
    exact ⟨c, hc, by simpa using hp⟩
  · rw [if_neg h]
    constructor
    · intro hcontra; cases hcontra
    · rintro ⟨c, hc, hp⟩
      exact absurd (List.any_eq_true.mpr ⟨c, hc, by simpa using hp⟩) h

/-- Reading the flags field of entry `i` out of a successfully written blob
gives the flags word computed by the source for device `i`. -/
lemma write_ok_flags {cfg : Config} {blob : List Nat}
    (h : writeIdentityStruct cfg = .ok blob) :
    ∀ i, i < cfg.configs.length →
      readLE32At blob (16 + 16 * i) =
        entryFlags (identityTypeOf cfg.configs)
          (identityOf (cfg.configs.getD i ⟨none⟩)) := by
  obtain ⟨evs, T, hrun, hbeq⟩ := writeIdentityStruct_ok_elim h
  obtain ⟨-, hlen, hall⟩ := runEntries_ok_spec _ _ _ _ hrun
  have hlen1 : evs.length = cfg.configs.length := by simpa using hlen
  intro i hi
  have hspec := hall i (by simpa using hi)
  rw [getD_map_identityOf] at hspec
  obtain ⟨hf, -, -, -⟩ := hspec
  have hilen : i < evs.length := hlen1 ▸ hi
  have hEB := entriesBytes_drop evs i hilen
  have h1 : 16 + 16 * i =
      (packHeader STRUCT_VERSION (identityTypeOf cfg.configs).val
        cfg.configs.length).length + (16 * i + 0) := by
    rw [packHeader_length]; ring
  rw [hbeq, List.append_assoc, h1, readLE32At_append, readLE32At_add_drop]
  have h2 : 16 * i ≤ ((evs.map packEntry).flatten).length := by
    rw [entriesBytes_length]; omega
  rw [List.drop_append_of_le_length h2, hEB, List.append_assoc]
  rw [packEntry_read_flags _ _ (by rw [hf]; exact lt_trans (entryFlags_lt _ _) (by norm_num))]
  exact hf

/-- The four presence bits of the flags word, by exhaustive case analysis
over the relevant identity fields. -/
lemma entryFlags_bits (t : IdentityType) (d : IdentityInfo) :
    (entryFlags t d &&& EntryFlags.HAS_SKU_ID ≠ 0 ↔ d.skuId.isSome = true) ∧
    (entryFlags t d &&& EntryFlags.HAS_WHITELABEL ≠ 0 ↔
      (d.whitelabelTag.isSome = true ∧ d.customizationId = none)) ∧
    (entryFlags t d &&& EntryFlags.USES_CUSTOMIZATION_ID ≠ 0 ↔
      d.customizationId.isSome = true) ∧
    (t = .ARM → (entryFlags t d &&& EntryFlags.USES_FIRMWARE_NAME ≠ 0 ↔
      d.firmwareName.isSome = true)) := by
  obtain ⟨sku, smb, dt, fw, cust, wl⟩ := d
  cases t <;> cases sku <;> cases smb <;> cases fw <;> cases cust <;> cases wl <;>
    · simp [entryFlags, EntryFlags.HAS_SKU_ID, EntryFlags.HAS_WHITELABEL,
        EntryFlags.USES_CUSTOMIZATION_ID, EntryFlags.USES_FIRMWARE_NAME,
        EntryFlags.HAS_SMBIOS_NAME]
      try decide

end MasterLemmas

section FirstSeenLemmas

lemma insertNew_nodup {T : List (List Nat)} (h : T.Nodup) (e : List Nat) :
    (insertNew T e).Nodup := by
  unfold insertNew
  by_cases he : e ∈ T
  · simpa [he] using h
  · simp only [he, if_false]
    rw [List.nodup_append]
    exact ⟨h, List.nodup_singleton e, by simpa using he⟩

lemma insertNew_mem {T : List (List Nat)} {e a : List Nat} :
    a ∈ insertNew T e ↔ a ∈ T ∨ a = e := by
  unfold insertNew
  by_cases he : e ∈ T
  · simp only [he, if_true]
    constructor
    · exact Or.inl
    · rintro (h | rfl)
      · exact h
      · exact he
  · simp [he]

lemma foldl_insertNew_nodup (es : List (List Nat)) :
    ∀ T : List (List Nat), T.Nodup → (es.foldl insertNew T).Nodup := by
  induction es with
  | nil => exact fun T h => h
  | cons e es ih => exact fun T h => ih _ (insertNew_nodup h e)

lemma foldl_insertNew_mem (es : List (List Nat)) :
    ∀ (T : List (List Nat)) (a : List Nat),
      a ∈ es.foldl insertNew T ↔ a ∈ T ∨ a ∈ es := by
  induction es with
  | nil => intro T a; simp
  | cons e es ih =>
      intro T a
      rw [List.foldl_cons, ih, insertNew_mem]
      constructor
      · rintro ((h | rfl) | h)
        · exact Or.inl h
        · exact Or.inr (List.mem_cons_self a es)
        · exact Or.inr (List.mem_cons_of_mem e h)
      · rintro (h | h)
        · exact Or.inl (Or.inl h)
        · rcases List.mem_cons.mp h with rfl | h
          · exact Or.inl (Or.inr rfl)
          · exact Or.inr h

lemma stIndex_table_eq_insertNew (T : List (List Nat)) :
    ∀ m : Option String,
      (stIndex T m).2 = (match m with
        | some s => insertNew T (encStr s)
        | none => T)
  | none => rfl
  | some s => by
      by_cases h : encStr s ∈ T <;> simp [stIndex, insertNew, h]

lemma mkEntry_table_eq {t : IdentityType} {d : IdentityInfo} {T T1 : List (List Nat)}
    {ev : EntryVals} (h : mkEntry t d T = .ok (ev, T1)) :
    T1 = (entryStrings t d).foldl insertNew T := by
  cases hmm : modelMatch t d with
  | error u => cases u; simp [mkEntry, hmm] at h
  | ok mm =>
      simp only [mkEntry, hmm, Except.ok.injEq, Prod.mk.injEq] at h
      obtain ⟨-, hT1⟩ := h
      rw [← hT1]
      cases mm with
      | none =>
          cases hwm : whitelabelMatch d with
          | none =>
              simp [entryStrings, hmm, hwm, stIndex_table_eq_insertNew]
          | some s =>
              simp [entryStrings, hmm, hwm, stIndex_table_eq_insertNew]
      | some s1 =>
          cases hwm : whitelabelMatch d with
          | none =>
              simp [entryStrings, hmm, hwm, stIndex_table_eq_insertNew]
          | some s2 =>
              simp [entryStrings, hmm, hwm, stIndex_table_eq_insertNew]

lemma runEntries_table_eq {t : IdentityType} :
    ∀ (ds : List IdentityInfo) (T : List (List Nat)) (evs : List EntryVals)
      (Tf : List (List Nat)), runEntries t ds T = .ok (evs, Tf) →
      Tf = ((ds.map (entryStrings t)).flatten).foldl insertNew T
  | [], T, evs, Tf, h => by
      simp only [runEntries, Except.ok.injEq, Prod.mk.injEq] at h
      simp [← h.2]
  | d :: ds, T, evs, Tf, h => by
      rw [runEntries] at h
      cases hmk : mkEntry t d T with
      | error u => rw [hmk] at h; cases u; cases h
      | ok p =>
          obtain ⟨ev, T1⟩ := p
          rw [hmk] at h
          dsimp only at h
          cases hrun : runEntries t ds T1 with
          | error evs1 => rw [hrun] at h; cases h
          | ok p1 =>
              obtain ⟨evs1, T2⟩ := p1
              rw [hrun] at h
              dsimp only at h
              simp only [Except.ok.injEq, Prod.mk.injEq] at h
              have htail := runEntries_table_eq ds T1 evs1 T2 hrun
              rw [← h.2, htail, mkEntry_table_eq hmk]
              simp [List.foldl_append]

lemma offsetOf_eq_sum_takeWhile (T : List (List Nat)) (e : List Nat) :
    offsetOf T e = ((T.takeWhile (fun x => x ≠ e)).map List.length).sum := by
  induction T with
  | nil => rfl
  | cons t ts ih =>
      by_cases hte : t = e
      · simp [offsetOf, hte, List.takeWhile_cons]
      · simp [offsetOf, hte, List.takeWhile_cons, ih]

end FirstSeenLemmas

section ErrorLemmas

lemma modelMatch_arm_error_iff (d : IdentityInfo) :
    modelMatch .ARM d = .error () ↔
      d.firmwareName = none ∧ d.deviceTreeCompatibleMatch = none := by
  cases hfw : d.firmwareName with
  | some fn => simp [modelMatch, hfw]
  | none =>
      cases hdt : d.deviceTreeCompatibleMatch with
      | some dt => simp [modelMatch, hfw, hdt]
      | none => simp [modelMatch, hfw, hdt]

lemma mkEntry_ok_of_not_error {t : IdentityType} {d : IdentityInfo}
    (T : List (List Nat)) (h : modelMatch t d ≠ .error ()) :
    ∃ ev T1, mkEntry t d T = .ok (ev, T1) := by
  cases hmm : modelMatch t d with
  | error u => cases u; exact absurd hmm h
  | ok mm =>
      refine ⟨⟨entryFlags t d, (stIndex T mm).1, d.skuId.getD 0,
        (stIndex (stIndex T mm).2 (whitelabelMatch d)).1⟩,
        (stIndex (stIndex T mm).2 (whitelabelMatch d)).2, ?_⟩
      simp [mkEntry, hmm]

lemma runEntries_error_spec {t : IdentityType} :
    ∀ (ds : List IdentityInfo) (T : List (List Nat)) (k : Nat),
      k < ds.length →
      modelMatch t (ds.getD k emptyIdentity) = .error () →
      (∀ j, j < k → modelMatch t (ds.getD j emptyIdentity) ≠ .error ()) →
      ∃ evs T1, runEntries t (ds.take k) T = .ok (evs, T1) ∧
        runEntries t ds T = .error evs ∧ evs.length = k
  | [], T, k, hk, _, _ => absurd hk (by simp)
  | d :: ds, T, k, hk, hbad, hgood => by
      cases k with
      | zero =>
          simp only [List.getD_cons_zero] at hbad
          have hmk : mkEntry t d T = .error () := by
            simp [mkEntry, hbad]
          refine ⟨[], T, by simp [runEntries], ?_, rfl⟩
          rw [runEntries, hmk]
      | succ k =>
          have hne : modelMatch t d ≠ .error () := by
            have := hgood 0 (Nat.succ_pos k)
            simpa using this
          obtain ⟨ev, T1, hmk⟩ := mkEntry_ok_of_not_error T hne
          have hbad1 : modelMatch t (ds.getD k emptyIdentity) = .error () := by
            simpa using hbad
          have hgood1 : ∀ j, j < k → modelMatch t (ds.getD j emptyIdentity) ≠ .error () := by
            intro j hj
            have := hgood (j + 1) (by omega)
            simpa using this
          obtain ⟨evs, T2, htake, herr, hlen⟩ :=
            runEntries_error_spec ds T1 k (by simpa using hk) hbad1 hgood1
          refine ⟨ev :: evs, T2, ?_, ?_, by simp [hlen]⟩
          · rw [List.take_succ_cons, runEntries, hmk]
            dsimp only
            rw [htake]
          · rw [runEntries, hmk]
            dsimp only
            rw [herr]

end ErrorLemmas

section TreeLemmas

lemma sizeOf_dict_child {es : List (String × CValue)} {k : String} {v : CValue}
    (h : (k, v) ∈ es) : sizeOf v < sizeOf (CValue.dict es) := by
  have h1 := List.sizeOf_lt_of_mem h
  have h2 : sizeOf v < sizeOf (k, v) := by
    simp only [Prod.mk.sizeOf_spec]
    omega
  simp only [CValue.dict.sizeOf_spec]
  omega

lemma sizeOf_list_child {es : List CValue} {v : CValue} (h : v ∈ es) :
    sizeOf v < sizeOf (CValue.list es) := by
  have h1 := List.sizeOf_lt_of_mem h
  simp only [CValue.list.sizeOf_spec]
  omega

lemma writeDictChildren_mem (es : List (String × CValue)) (p : String) (e : FSEntry) :
    e ∈ writeDictChildren es p ↔
      ∃ k v, (k, v) ∈ es ∧ e ∈ writeConfigFSFiles v (pathJoin p k) := by
  induction es with
  | nil => simp [writeDictChildren]
  | cons kv es ih =>
      obtain ⟨k, v⟩ := kv
      rw [writeDictChildren, List.mem_append, ih]
      constructor
      · rintro (h | ⟨k1, v1, hmem, h⟩)
        · exact ⟨k, v, List.mem_cons_self _ _, h⟩
        · exact ⟨k1, v1, List.mem_cons_of_mem _ hmem, h⟩
      · rintro ⟨k1, v1, hmem, h⟩
        rcases List.mem_cons.mp hmem with heq | hmem1
        · rw [Prod.mk.injEq] at heq
          rw [← heq.1, ← heq.2]
          exact Or.inl h
        · exact Or.inr ⟨k1, v1, hmem1, h⟩

lemma writeListChildren_mem (es : List CValue) :
    ∀ (i : Nat) (p : String) (e : FSEntry),
      e ∈ writeListChildren i es p ↔
        ∃ j, ∃ hj : j < es.length,
          e ∈ writeConfigFSFiles (es.get ⟨j, hj⟩) (pathJoin p (toString (i + j))) := by
  induction es with
  | nil => intro i p e; simp [writeListChildren]
  | cons v es ih =>
      intro i p e
      rw [writeListChildren, List.mem_append, ih (i + 1) p e]
      constructor
      · rintro (h | ⟨j, hj, h⟩)
        · refine ⟨0, by simp, ?_⟩
          simpa using h
        · refine ⟨j + 1, by simpa using Nat.succ_lt_succ hj, ?_⟩
          have harith : i + (j + 1) = i + 1 + j := by omega
          rw [harith]
          simpa using h
      · rintro ⟨j, hj, h⟩
        cases j with
        | zero =>
            refine Or.inl ?_
            simpa using h
        | succ j1 =>
            refine Or.inr ⟨j1, by simpa using Nat.lt_of_succ_lt_succ hj, ?_⟩
            have harith : i + 1 + j1 = i + (j1 + 1) := by omega
            rw [harith]
            simpa using h

lemma mem_writeConfigFSFiles_iff :
    ∀ (v : CValue) (p : String) (e : FSEntry),
      e ∈ writeConfigFSFiles v p ↔ ∃ c q, Reach v p c q ∧ e = nodeEntry c q := by
  suffices H : ∀ (n : Nat) (v : CValue), sizeOf v < n → ∀ (p : String) (e : FSEntry),
      e ∈ writeConfigFSFiles v p ↔ ∃ c q, Reach v p c q ∧ e = nodeEntry c q by
    exact fun v p e => H (sizeOf v + 1) v (Nat.lt_succ_self _) p e
  intro n
  induction n with
  | zero => intro v hv; omega
  | succ n ih =>
      intro v hv p e
      cases v with
      | leaf l =>
          rw [writeConfigFSFiles]
          constructor
          · intro h
            rcases List.mem_singleton.mp h with rfl
            exact ⟨.leaf l, p, Reach.here _ _, rfl⟩
          · rintro ⟨c, q, hr, rfl⟩
            cases hr
            exact List.mem_singleton.mpr rfl
      | dict es =>
          rw [writeConfigFSFiles, List.mem_cons, writeDictChildren_mem]
          constructor
          · rintro (rfl | ⟨k, v1, hmem, h⟩)
            · exact ⟨.dict es, p, Reach.here _ _, rfl⟩
            · have hsz : sizeOf v1 < n := by
                have := sizeOf_dict_child hmem
                omega
              rcases (ih v1 hsz (pathJoin p k) e).mp h with ⟨c, q, hr, rfl⟩
              exact ⟨c, q, Reach.dictStep es p k v1 c q hmem hr, rfl⟩
          · rintro ⟨c, q, hr, rfl⟩
            cases hr with
            | here => exact Or.inl rfl
            | dictStep es1 p1 k v1 c1 q1 hmem hr1 =>
                refine Or.inr ⟨k, v1, hmem, ?_⟩
                have hsz : sizeOf v1 < n := by
                  have := sizeOf_dict_child hmem
                  omega
                exact (ih v1 hsz (pathJoin p k) _).mpr ⟨c, q, hr1, rfl⟩
      | list es =>
          rw [writeConfigFSFiles, List.mem_cons, writeListChildren_mem]
          constructor
          · rintro (rfl | ⟨j, hj, h⟩)
            · exact ⟨.list es, p, Reach.here _ _, rfl⟩
            · have hsz : sizeOf (es.get ⟨j, hj⟩) < n := by
                have := sizeOf_list_child (es.get_mem j hj)
                omega
              rw [Nat.zero_add] at h
              rcases (ih _ hsz (pathJoin p (toString j)) e).mp h with ⟨c, q, hr, rfl⟩
              exact ⟨c, q, Reach.listStep es p j c q hj hr, rfl⟩
          · rintro ⟨c, q, hr, rfl⟩
            cases hr with
            | here => exact Or.inl rfl
            | listStep es1 p1 j c1 q1 hj hr1 =>
                refine Or.inr ⟨j, hj, ?_⟩
                rw [Nat.zero_add]
                have hsz : sizeOf (es.get ⟨j, hj⟩) < n := by
                  have := sizeOf_list_child (es.get_mem j hj)
                  omega
                exact (ih _ hsz (pathJoin p (toString j)) _).mpr ⟨c, q, hr1, rfl⟩

end TreeLemmas

/-! ### Claim theorems -/

/-- **C2.** For every configuration dictionary, the identity-type field
written in the header by `WriteIdentityStruct` (the little-endian 32-bit
word at byte offset 4 of the output) is ARM (value 1) if and only if at
least one device config's identity dict contains a
`device-tree-compatible-match` key or a `firmware-name` key, and otherwise
is X86 (value 0). -/
theorem identity_type_field_arm_iff (cfg : Config) :
    (readLE32At (outBytes (writeIdentityStruct cfg)) 4 = 1 ↔
      ∃ c ∈ cfg.configs, (identityOf c).deviceTreeCompatibleMatch.isSome = true ∨
        (identityOf c).firmwareName.isSome = true) ∧
    (readLE32At (outBytes (writeIdentityStruct cfg)) 4 = 0 ↔
      ¬ ∃ c ∈ cfg.configs, (identityOf c).deviceTreeCompatibleMatch.isSome = true ∨
        (identityOf c).firmwareName.isSome = true) := by
  obtain ⟨rest, hout⟩ := outBytes_header cfg
  have hread : readLE32At (outBytes (writeIdentityStruct cfg)) 4 =
      (identityTypeOf cfg.configs).val := by
    rw [hout]
    exact packHeader_read_ity _ _ _ _ (IdentityType.val_lt _)
  rw [hread]
  by_cases hex : ∃ c ∈ cfg.configs,
      (identityOf c).deviceTreeCompatibleMatch.isSome = true ∨
        (identityOf c).firmwareName.isSome = true
  · rw [(identityTypeOf_eq_ARM_iff cfg.configs).mpr hex]
    simp only [IdentityType.val]
    exact ⟨by simp [hex], by simp [hex]⟩
  · have ht : identityTypeOf cfg.configs = .X86 := by
      cases h : identityTypeOf cfg.configs with
      | X86 => rfl
      | ARM => exact absurd ((identityTypeOf_eq_ARM_iff cfg.configs).mp h) hex
    rw [ht]
    simp only [IdentityType.val]
    exact ⟨by simp [hex], by simp [hex]⟩

/-- **C6.** The header written by `WriteIdentityStruct` is exactly 16
bytes: three little-endian unsigned 32-bit fields (format version = 0,
identity type 0 or 1, entry count = number of device configs) followed by
4 reserved zero pad bytes; each entry struct is exactly 16 bytes: four
little-endian unsigned 32-bit fields in the order bitflags, model-match
string offset, SKU id, whitelabel-match string offset. -/
theorem header_and_entry_layout (cfg : Config)
    (hn : cfg.configs.length < 2 ^ 32) :
    (packHeader STRUCT_VERSION (identityTypeOf cfg.configs).val
        cfg.configs.length).length = 16 ∧
    (∀ ev : EntryVals, (packEntry ev).length = 16 ∧
      packEntry ev = le32 ev.flags ++ le32 ev.modelOff ++ le32 ev.sku ++ le32 ev.wlOff) ∧
    (outBytes (writeIdentityStruct cfg)).take 16 =
      le32 STRUCT_VERSION ++ le32 (identityTypeOf cfg.configs).val ++
        le32 cfg.configs.length ++ [0, 0, 0, 0] ∧
    readLE32At (outBytes (writeIdentityStruct cfg)) 0 = 0 ∧
    readLE32At (outBytes (writeIdentityStruct cfg)) 8 = cfg.configs.length ∧
    ((identityTypeOf cfg.configs).val = 0 ∨ (identityTypeOf cfg.configs).val = 1) := by
  obtain ⟨rest, hout⟩ := outBytes_header cfg
  obtain ⟨hr0, -, hr8⟩ :=
    packHeader_reads STRUCT_VERSION (identityTypeOf cfg.configs).val
      cfg.configs.length rest (by norm_num [STRUCT_VERSION]) (IdentityType.val_lt _) hn
  refine ⟨packHeader_length _ _ _, fun ev => ⟨packEntry_length ev, rfl⟩, ?_, ?_, ?_, ?_⟩
  · rw [hout]
    have h16 : (16 : Nat) = (packHeader STRUCT_VERSION (identityTypeOf cfg.configs).val
        cfg.configs.length).length := (packHeader_length _ _ _).symm
    rw [h16, List.take_left]
    rfl
  · rw [hout, hr0]
    rfl
  · rw [hout, hr8]
  · cases identityTypeOf cfg.configs with
    | X86 => exact Or.inl rfl
    | ARM => exact Or.inr rfl

/-- **C6 witness:** the layout theorem instantiated at `cfgShare`. -/
theorem header_and_entry_layout_witness :
    readLE32At (outBytes (writeIdentityStruct cfgShare)) 8 = cfgShare.configs.length :=
  (header_and_entry_layout cfgShare (by decide)).2.2.2.2.1

/-- **C7.** Determinism: the bytes written by `WriteIdentityStruct` are a
function of the sequence of per-device identity dicts alone — two
configuration dictionaries whose device configs carry equal identity data
(in the same order) serialize to byte-identical output.  (The embedding is
a pure function, so two runs on equal inputs are trivially equal; this
theorem additionally shows the output does not depend on anything outside
the identity dicts.) -/
theorem write_deterministic (cfg1 cfg2 : Config)
    (h : cfg1.configs.map identityOf = cfg2.configs.map identityOf) :
    writeIdentityStruct cfg1 = writeIdentityStruct cfg2 := by
  have hlen : cfg1.configs.length = cfg2.configs.length := by
    have := congrArg List.length h
    simpa using this
  have hany : ∀ ds : List DeviceConfig,
      ds.any (fun c => (identityOf c).deviceTreeCompatibleMatch.isSome
          || (identityOf c).firmwareName.isSome)
        = (ds.map identityOf).any
            (fun d => d.deviceTreeCompatibleMatch.isSome || d.firmwareName.isSome) := by
    intro ds
    induction ds with
    | nil => rfl
    | cons c cs ih => simp [List.any_cons, ih]
  have hty : identityTypeOf cfg1.configs = identityTypeOf cfg2.configs := by
    unfold identityTypeOf
    rw [hany, hany, h]
  unfold writeIdentityStruct
  dsimp only
  rw [hty, hlen, h]

/-- **C7 witness:** a config with no `identity` key and a config with an
empty identity dict have equal identity data, and serialize identically. -/
theorem write_deterministic_witness :
    writeIdentityStruct cfgNoIdent = writeIdentityStruct cfgEmptyIdent :=
  write_deterministic cfgNoIdent cfgEmptyIdent (by decide)

/-- **C9.** The first string inserted into the string table is stored at
offset 0 — the same value that denotes an absent string: `cfgFirstStr`'s
entry has its model-match string present with stored offset 0 (and the
string really is at offset 0 of the table), while `cfgNoStr`'s entry has
no model-match string and also stores offset 0; the two blobs are told
apart only by their flag words. -/
theorem offset_zero_ambiguity :
    (∀ s : String, (stIndex [] (some s)).1 = 0) ∧
    (∃ b, writeIdentityStruct cfgFirstStr = .ok b ∧
      modelMatch (identityTypeOf cfgFirstStr.configs)
        (identityOf (cfgFirstStr.configs.getD 0 ⟨none⟩)) = .ok (some "a") ∧
      readLE32At b 20 = 0 ∧
      getTableString b 32 0 = utf8Bytes "a") ∧
    (∃ b, writeIdentityStruct cfgNoStr = .ok b ∧
      modelMatch (identityTypeOf cfgNoStr.configs)
        (identityOf (cfgNoStr.configs.getD 0 ⟨none⟩)) = .ok none ∧
      readLE32At b 20 = 0) ∧
    readLE32At (outBytes (writeIdentityStruct cfgFirstStr)) 16 ≠
      readLE32At (outBytes (writeIdentityStruct cfgNoStr)) 16 := by
  refine ⟨?_, ?_, ?_, by decide⟩
  · intro s
    simp [stIndex, offsetOf]
  · exact ⟨outBytes (writeIdentityStruct cfgFirstStr), by decide, by decide,
      by decide, by decide⟩
  · exact ⟨outBytes (writeIdentityStruct cfgNoStr), by decide, by decide, by decide⟩

/-- **C1 counterexample:** for the accepted configuration `cfgUpper`
(model-match string `"A"`), parsing the emitted blob at the stored
model-match offset yields the bytes of `"a"`, not the input string `"A"`:
the round trip does not recover the input strings verbatim. -/
theorem roundtrip_counterexample :
    ∃ b, writeIdentityStruct cfgUpper = .ok b ∧
      modelMatch (identityTypeOf cfgUpper.configs)
        (identityOf (cfgUpper.configs.getD 0 ⟨none⟩)) = .ok (some "A") ∧
      getTableString b (16 + 16 * cfgUpper.configs.length) (readLE32At b 20) =
        utf8Bytes "a" ∧
      getTableString b (16 + 16 * cfgUpper.configs.length) (readLE32At b 20) ≠
        utf8Bytes "A" :=
  ⟨outBytes (writeIdentityStruct cfgUpper), by decide, by decide, by decide, by decide⟩

/-- **C1 (amended).** Round-trip: for every configuration accepted by
`WriteIdentityStruct` (with SKU ids and blob size within 32 bits and
NUL-free match strings), parsing the emitted blob — 16-byte header, then
entry-count 16-byte entries, then the string table — recovers the same
per-device flags and SKU ids as the input, and the *lower-cased* form of
each model-match/whitelabel-match string, for each device config in
order. -/
theorem roundtrip_recovers_lowercased (cfg : Config) (blob : List Nat)
    (h : writeIdentityStruct cfg = .ok blob)
    (hn : cfg.configs.length < 2 ^ 32)
    (hsku : ∀ c ∈ cfg.configs, (identityOf c).skuId.getD 0 < 2 ^ 32)
    (hnul : ∀ c ∈ cfg.configs, nulFreeIdentity (identityOf c))
    (hb : blob.length < 2 ^ 32) :
    readLE32At blob 8 = cfg.configs.length ∧
    ∀ i, i < cfg.configs.length →
      readLE32At blob (16 + 16 * i) =
          entryFlags (identityTypeOf cfg.configs)
            (identityOf (cfg.configs.getD i ⟨none⟩)) ∧
      readLE32At blob (16 + 16 * i + 8) =
          (identityOf (cfg.configs.getD i ⟨none⟩)).skuId.getD 0 ∧
      (∀ s, modelMatch (identityTypeOf cfg.configs)
            (identityOf (cfg.configs.getD i ⟨none⟩)) = .ok (some s) →
          getTableString blob (16 + 16 * cfg.configs.length)
              (readLE32At blob (16 + 16 * i + 4)) = utf8Bytes (strLower s)) ∧
      (modelMatch (identityTypeOf cfg.configs)
            (identityOf (cfg.configs.getD i ⟨none⟩)) = .ok none →
          readLE32At blob (16 + 16 * i + 4) = 0) ∧
      (∀ s, whitelabelMatch (identityOf (cfg.configs.getD i ⟨none⟩)) = some s →
          getTableString blob (16 + 16 * cfg.configs.length)
              (readLE32At blob (16 + 16 * i + 12)) = utf8Bytes (strLower s)) ∧
      (whitelabelMatch (identityOf (cfg.configs.getD i ⟨none⟩)) = none →
          readLE32At blob (16 + 16 * i + 12) = 0) := by
  constructor
  · have hout : outBytes (writeIdentityStruct cfg) = blob := by rw [h]; rfl
    obtain ⟨rest, hh⟩ := outBytes_header cfg
    rw [← hout, hh]
    exact packHeader_read_count _ _ _ _ hn
  · exact write_ok_reads h hsku hnul hb

/-- **C1 witness:** at `cfgShare`, the blob's first entry stores the
lower-cased bytes of its model-match string `"Shared"`. -/
theorem roundtrip_recovers_lowercased_witness :
    getTableString blobShare (16 + 16 * cfgShare.configs.length)
      (readLE32At blobShare (16 + 16 * 0 + 4)) = utf8Bytes (strLower "Shared") :=
  (((roundtrip_recovers_lowercased cfgShare blobShare (by decide) (by decide)
      (by decide) (by decide) (by decide)).2 0 (by decide)).2.2.1) "Shared" (by decide)

/-- **C3 counterexample:** for `cfgBothTags`, whose identity dict contains
both `customization-id` and `whitelabel-tag`, the written bitflags word
does not have the HAS_WHITELABEL bit even though `whitelabel-tag` is
present — refuting "HAS_WHITELABEL is set iff whitelabel-tag is
present". -/
theorem whitelabel_bit_counterexample :
    (identityOf (cfgBothTags.configs.getD 0 ⟨none⟩)).whitelabelTag.isSome = true ∧
    ∃ b, writeIdentityStruct cfgBothTags = .ok b ∧
      readLE32At b 16 &&& EntryFlags.HAS_WHITELABEL = 0 :=
  ⟨by decide, outBytes (writeIdentityStruct cfgBothTags), by decide, by decide⟩

/-- **C3 (amended).** For every device config serialized by
`WriteIdentityStruct`, the entry's bitflags field contains independent
presence bits: HAS_SKU_ID is set iff `sku-id` is present, HAS_WHITELABEL
is set iff `whitelabel-tag` is present *and `customization-id` is absent*
(the customization id takes precedence), USES_CUSTOMIZATION_ID is set iff
`customization-id` is present, and (for ARM identity type only)
USES_FIRMWARE_NAME is set iff `firmware-name` is present. -/
theorem entry_bitflags (cfg : Config) (blob : List Nat)
    (h : writeIdentityStruct cfg = .ok blob) :
    ∀ i, i < cfg.configs.length →
      (readLE32At blob (16 + 16 * i) &&& EntryFlags.HAS_SKU_ID ≠ 0 ↔
        (identityOf (cfg.configs.getD i ⟨none⟩)).skuId.isSome = true) ∧
      (readLE32At blob (16 + 16 * i) &&& EntryFlags.HAS_WHITELABEL ≠ 0 ↔
        ((identityOf (cfg.configs.getD i ⟨none⟩)).whitelabelTag.isSome = true ∧
          (identityOf (cfg.configs.getD i ⟨none⟩)).customizationId = none)) ∧
      (readLE32At blob (16 + 16 * i) &&& EntryFlags.USES_CUSTOMIZATION_ID ≠ 0 ↔
        (identityOf (cfg.configs.getD i ⟨none⟩)).customizationId.isSome = true) ∧
      (identityTypeOf cfg.configs = .ARM →
        (readLE32At blob (16 + 16 * i) &&& EntryFlags.USES_FIRMWARE_NAME ≠ 0 ↔
          (identityOf (cfg.configs.getD i ⟨none⟩)).firmwareName.isSome = true)) := by
  intro i hi
  rw [write_ok_flags h i hi]
  exact entryFlags_bits _ _

/-- **C3 witness:** the bitflags theorem instantiated at `cfgShare`,
entry 0 (which has a SKU id). -/
theorem entry_bitflags_witness :
    readLE32At blobShare (16 + 16 * 0) &&& EntryFlags.HAS_SKU_ID ≠ 0 ↔
      (identityOf (cfgShare.configs.getD 0 ⟨none⟩)).skuId.isSome = true :=
  (entry_bitflags cfgShare blobShare (by decide) 0 (by decide)).1

/-- **C4.** The string table written by `WriteIdentityStruct` is the
first-seen-order fold of the (lower-cased, NUL-terminated) encoded match
strings of the entries, deduplicated by exact byte match: it has no
duplicate entries, contains exactly the encoded match strings, each
stored offset is the byte offset of that string in the table, and two
entries whose match strings agree after lower-casing store the same
string-table offset. -/
theorem string_table_dedup (cfg : Config) (blob : List Nat)
    (h : writeIdentityStruct cfg = .ok blob) :
    ∃ evs T,
      runEntries (identityTypeOf cfg.configs) (cfg.configs.map identityOf) []
          = .ok (evs, T) ∧
      blob = packHeader STRUCT_VERSION (identityTypeOf cfg.configs).val
          cfg.configs.length ++ (evs.map packEntry).flatten ++ T.flatten ∧
      T = (((cfg.configs.map identityOf).map
          (entryStrings (identityTypeOf cfg.configs))).flatten).foldl insertNew [] ∧
      T.Nodup ∧
      (∀ e, e ∈ T ↔ e ∈ ((cfg.configs.map identityOf).map
          (entryStrings (identityTypeOf cfg.configs))).flatten) ∧
      (∀ i, i < cfg.configs.length →
        (∀ s, modelMatch (identityTypeOf cfg.configs)
              (identityOf (cfg.configs.getD i ⟨none⟩)) = .ok (some s) →
            (evs.getD i ev0).modelOff = offsetOf T (encStr s)) ∧
        (∀ s, whitelabelMatch (identityOf (cfg.configs.getD i ⟨none⟩)) = some s →
            (evs.getD i ev0).wlOff = offsetOf T (encStr s))) ∧
      (∀ i j si sj, i < cfg.configs.length → j < cfg.configs.length →
        modelMatch (identityTypeOf cfg.configs)
            (identityOf (cfg.configs.getD i ⟨none⟩)) = .ok (some si) →
        modelMatch (identityTypeOf cfg.configs)
            (identityOf (cfg.configs.getD j ⟨none⟩)) = .ok (some sj) →
        strLower si = strLower sj →
        (evs.getD i ev0).modelOff = (evs.getD j ev0).modelOff) := by
  obtain ⟨evs, T, hrun, hbeq⟩ := writeIdentityStruct_ok_elim h
  obtain ⟨-, hlen, hall⟩ := runEntries_ok_spec _ _ _ _ hrun
  have htab := runEntries_table_eq _ _ _ _ hrun
  refine ⟨evs, T, hrun, hbeq, htab, ?_, ?_, ?_, ?_⟩
  · rw [htab]
    exact foldl_insertNew_nodup _ _ List.nodup_nil
  · intro e
    rw [htab, foldl_insertNew_mem]
    simp
  · intro i hi
    have hspec := hall i (by simpa using hi)
    rw [getD_map_identityOf] at hspec
    obtain ⟨-, -, hm, hw⟩ := hspec
    constructor
    · intro s hs
      rw [hs] at hm
      exact hm.1
    · intro s hs
      rw [hs] at hw
      exact hw.1
  · intro i j si sj hi hj hmi hmj hlow
    have hai := hall i (by simpa using hi)
    rw [getD_map_identityOf] at hai
    have haj := hall j (by simpa using hj)
    rw [getD_map_identityOf] at haj
    obtain ⟨-, -, hmi1, -⟩ := hai
    obtain ⟨-, -, hmj1, -⟩ := haj
    rw [hmi] at hmi1
    rw [hmj] at hmj1
    rw [hmi1.1, hmj1.1]
    have henc : encStr si = encStr sj := by
      unfold encStr
      rw [hlow]
    rw [henc]

/-- **C4 witness:** at `cfgShare` the final string table has no duplicate
entries, and the two entries' model-match offsets coincide (their strings
`"Shared"` and `"shared"` agree after lower-casing). -/
theorem string_table_dedup_witness :
    ∃ evs T,
      runEntries (identityTypeOf cfgShare.configs) (cfgShare.configs.map identityOf) []
          = .ok (evs, T) ∧
      T.Nodup ∧ (evs.getD 0 ev0).modelOff = (evs.getD 1 ev0).modelOff := by
  obtain ⟨evs, T, hrun, -, -, hnodup, -, -, hpair⟩ :=
    string_table_dedup cfgShare blobShare (by decide)
  exact ⟨evs, T, hrun, hnodup,
    hpair 0 1 "Shared" "shared" (by decide) (by decide) (by decide) (by decide) (by decide)⟩

/-- **C5.** For every entry written by `WriteIdentityStruct`, each
string-offset field equals the cumulative byte length (NUL terminators
included) of all string-table strings preceding that entry's string in
the table, and equals 0 when the corresponding string is absent from the
device's identity. -/
theorem offsets_cumulative (cfg : Config) (blob : List Nat)
    (h : writeIdentityStruct cfg = .ok blob) :
    ∃ evs T,
      runEntries (identityTypeOf cfg.configs) (cfg.configs.map identityOf) []
          = .ok (evs, T) ∧
      blob = packHeader STRUCT_VERSION (identityTypeOf cfg.configs).val
          cfg.configs.length ++ (evs.map packEntry).flatten ++ T.flatten ∧
      ∀ i, i < cfg.configs.length →
        (∀ s, modelMatch (identityTypeOf cfg.configs)
              (identityOf (cfg.configs.getD i ⟨none⟩)) = .ok (some s) →
            (evs.getD i ev0).modelOff =
              ((T.takeWhile (fun x => x ≠ encStr s)).map List.length).sum) ∧
        (modelMatch (identityTypeOf cfg.configs)
              (identityOf (cfg.configs.getD i ⟨none⟩)) = .ok none →
            (evs.getD i ev0).modelOff = 0) ∧
        (∀ s, whitelabelMatch (identityOf (cfg.configs.getD i ⟨none⟩)) = some s →
            (evs.getD i ev0).wlOff =
              ((T.takeWhile (fun x => x ≠ encStr s)).map List.length).sum) ∧
        (whitelabelMatch (identityOf (cfg.configs.getD i ⟨none⟩)) = none →
            (evs.getD i ev0).wlOff = 0) := by
  obtain ⟨evs, T, hrun, hbeq⟩ := writeIdentityStruct_ok_elim h
  obtain ⟨-, hlen, hall⟩ := runEntries_ok_spec _ _ _ _ hrun
  refine ⟨evs, T, hrun, hbeq, ?_⟩
  intro i hi
  have hspec := hall i (by simpa using hi)
  rw [getD_map_identityOf] at hspec
  obtain ⟨-, -, hm, hw⟩ := hspec
  refine ⟨?_, ?_, ?_, ?_⟩
  · intro s hs
    rw [hs] at hm
    rw [hm.1, offsetOf_eq_sum_takeWhile]
  · intro hs
    rw [hs] at hm
    exact hm
  · intro s hs
    rw [hs] at hw
    rw [hw.1, offsetOf_eq_sum_takeWhile]
  · intro hs
    rw [hs] at hw
    exact hw

/-- **C5 witness:** at `cfgShare`, entry 1's whitelabel offset (for its
`customization-id` string `"Cust"`) is the summed byte length of the table
strings before `"cust\x00"`. -/
theorem offsets_cumulative_witness :
    ∃ evs T,
      runEntries (identityTypeOf cfgShare.configs) (cfgShare.configs.map identityOf) []
          = .ok (evs, T) ∧
      (evs.getD 1 ev0).wlOff =
        ((T.takeWhile (fun x => x ≠ encStr "Cust")).map List.length).sum := by
  obtain ⟨evs, T, hrun, -, hoff⟩ := offsets_cumulative cfgShare blobShare (by decide)
  exact ⟨evs, T, hrun, ((hoff 1 (by decide)).2.2.1) "Cust" (by decide)⟩

/-- **C8.** When the computed identity type is ARM, `WriteIdentityStruct`
raises a `KeyError` at the first device config whose identity dict
contains neither `firmware-name` nor `device-tree-compatible-match`
(including a config with no identity dict); the header and the entries
preceding the failing one have already been written when it raises, so
the output file is not left unchanged on error. -/
theorem arm_keyerror_partial_write (cfg : Config) (k : Nat)
    (hk : k < cfg.configs.length)
    (harm : identityTypeOf cfg.configs = .ARM)
    (hbad : (identityOf (cfg.configs.getD k ⟨none⟩)).firmwareName = none ∧
      (identityOf (cfg.configs.getD k ⟨none⟩)).deviceTreeCompatibleMatch = none)
    (hgood : ∀ j, j < k →
      ¬ ((identityOf (cfg.configs.getD j ⟨none⟩)).firmwareName = none ∧
         (identityOf (cfg.configs.getD j ⟨none⟩)).deviceTreeCompatibleMatch = none)) :
    ∃ evs T1,
      runEntries .ARM ((cfg.configs.take k).map identityOf) [] = .ok (evs, T1) ∧
      writeIdentityStruct cfg = .error
        (packHeader STRUCT_VERSION IdentityType.ARM.val cfg.configs.length ++
          (evs.map packEntry).flatten) ∧
      evs.length = k ∧
      (packHeader STRUCT_VERSION IdentityType.ARM.val cfg.configs.length ++
        (evs.map packEntry).flatten).length = 16 + 16 * k := by
  have hk1 : k < (cfg.configs.map identityOf).length := by simpa using hk
  have hbadm : modelMatch .ARM ((cfg.configs.map identityOf).getD k emptyIdentity)
      = .error () := by
    rw [getD_map_identityOf]
    exact (modelMatch_arm_error_iff _).mpr hbad
  have hgoodm : ∀ j, j < k →
      modelMatch .ARM ((cfg.configs.map identityOf).getD j emptyIdentity) ≠ .error () := by
    intro j hj hc
    rw [getD_map_identityOf] at hc
    exact hgood j hj ((modelMatch_arm_error_iff _).mp hc)
  obtain ⟨evs, T1, htake, herr, hevlen⟩ :=
    runEntries_error_spec (cfg.configs.map identityOf) [] k hk1 hbadm hgoodm
  rw [← List.map_take] at htake
  refine ⟨evs, T1, htake, ?_, hevlen, ?_⟩
  · unfold writeIdentityStruct
    dsimp only
    rw [harm, herr]
  · simp only [List.length_append, packHeader_length, entriesBytes_length, hevlen]

/-- **C8 witness:** `cfgArmBad` is ARM-typed; its second config has no
identity dict at all, and the run fails after writing the header and the
first entry. -/
theorem arm_keyerror_partial_write_witness :
    ∃ evs T1,
      runEntries .ARM ((cfgArmBad.configs.take 1).map identityOf) [] = .ok (evs, T1) ∧
      writeIdentityStruct cfgArmBad = .error
        (packHeader STRUCT_VERSION IdentityType.ARM.val cfgArmBad.configs.length ++
          (evs.map packEntry).flatten) ∧
      evs.length = 1 ∧
      (packHeader STRUCT_VERSION IdentityType.ARM.val cfgArmBad.configs.length ++
        (evs.map packEntry).flatten).length = 16 + 16 * 1 :=
  arm_keyerror_partial_write cfgArmBad 1 (by decide) (by decide) (by decide)
    (by decide)

/-- **C10.** `WriteConfigFSFiles` mirrors the input tree field-for-field:
the filesystem objects it creates are exactly one object per tree node
reachable from the root — a directory for every dict or list node (its
children named by key or index through `pathJoin`), and a file whose
contents are `Serialize` of the leaf for every leaf; `Serialize` leaves
bytes unchanged, maps booleans to `b'true'`/`b'false'`, and encodes any
other value's string form as UTF-8. -/
theorem configfs_tree_mirror :
    (∀ (v : CValue) (p : String) (e : FSEntry),
      e ∈ writeConfigFSFiles v p ↔ ∃ c q, Reach v p c q ∧ e = nodeEntry c q) ∧
    (∀ (lv : Leaf) (q : String), nodeEntry (.leaf lv) q = ⟨q, .file (Serialize lv)⟩) ∧
    (∀ (es : List (String × CValue)) (q : String), nodeEntry (.dict es) q = ⟨q, .dir⟩) ∧
    (∀ (es : List CValue) (q : String), nodeEntry (.list es) q = ⟨q, .dir⟩) ∧
    (Serialize (.bool true) = utf8Bytes "true" ∧
      Serialize (.bool false) = utf8Bytes "false") ∧
    (∀ bs, Serialize (.bytes bs) = bs) ∧
    (∀ s, Serialize (.str s) = utf8Bytes s) ∧
    (∀ n, Serialize (.int n) = utf8Bytes (toString n)) :=
  ⟨mem_writeConfigFSFiles_iff, fun _ _ => rfl, fun _ _ => rfl, fun _ _ => rfl,
    ⟨rfl, rfl⟩, fun _ => rfl, fun _ => rfl, fun _ => rfl⟩

end ConfigFS
